import Mathlib

/-!
Verification of the ESP32-DAPLink firmware core: the buffered flash writer
(src/main/flash_manager.cpp) and the programming orchestrator
(src/main/programmer.cpp), embedded shallowly.

Machine integers: addresses and sizes in the source are uint32_t.  They are
modelled as Nat; none of the statements proved here exercises 32-bit
wrap-around (all concrete inputs are far below 2^32, and the general theorems
only ever add a block size to an in-range address).  Where the C code can
underflow (unsigned subtraction) the statements carry the invariants under
which the source itself is underflow-free.
-/

set_option autoImplicit false

namespace DAPLink

/-- Result codes (error_t).  The concrete numeric values are irrelevant to the
control flow; distinct backend failures are represented by fail n. -/
inductive ErrorT where
  | success
  | internal
  | fail (n : Nat)
deriving DecidableEq

/-- Observable backend events: every call the FlashManager makes into the
flash_intf_t function table, in order. -/
inductive Ev where
  | intfInit
  | intfUninit
  | algoSet (addr : Nat)
  | eraseSector (addr : Nat)
  | programPage (addr : Nat) (data : List Nat) (size : Nat)
deriving DecidableEq

/-- Model of flash_intf_t: a table of total functions (so the non-null check
flash_intf_valid of flash_manager.cpp:84 is vacuously satisfied); the optional
flash_algo_set member is modelled by the hasAlgoSet flag. -/
structure FlashIntf where
  initRes : ErrorT
  uninitRes : ErrorT
  progPageMinSize : Nat → Nat
  eraseSecSize : Nat → Nat
  eraseSecRes : Nat → ErrorT
  programPageRes : Nat → List Nat → Nat → ErrorT
  hasAlgoSet : Bool
  algoSetRes : Nat → ErrorT

/-- FLASH_STATE_CLOSED / OPEN / ERROR. -/
inductive FlashState where
  | closed
  | opened
  | error
deriving DecidableEq

/-- The FlashManager member variables (flash_manager.h, used throughout
flash_manager.cpp).  The page buffer capacity sizeof(_page_buffer) is kept as
an explicit parameter bufCap of the operations; pageBuffer always has length
bufCap in reachable states. -/
structure FMState where
  flashState : FlashState
  currentSectorValid : Bool
  lastPacketAddr : Nat
  currentWriteBlockAddr : Nat
  currentWriteBlockSize : Nat
  currentSectorAddr : Nat
  currentSectorSize : Nat
  pageBufEmpty : Bool
  pageBuffer : List Nat
deriving DecidableEq

/-- ROUND_DOWN(value, boundary) = value - value % boundary
(flash_manager.cpp:5).  In C a zero boundary makes the modulo undefined
behaviour; Nat.mod gives value % 0 = value, hence ROUND_DOWN value 0 = 0. -/
def ROUND_DOWN (value boundary : Nat) : Nat :=
  value - value % boundary

/-- memset(_page_buffer, 0xFF, n): overwrite the first n cells with 0xFF,
keeping the rest (and the length) intact. -/
def memsetFF (buf : List Nat) (n : Nat) : List Nat :=
  List.replicate (min n buf.length) 255 ++ buf.drop n

/-- memcpy(_page_buffer + pos, data, data.length): splice data into the
buffer at offset pos.  All call sites guarantee pos + data.length ≤ length. -/
def bufWrite (buf : List Nat) (pos : Nat) (data : List Nat) : List Nat :=
  buf.take pos ++ data ++ buf.drop (pos + data.length)

/-- The state established by the FlashManager constructor
(flash_manager.cpp:7). -/
def freshFM (bufCap : Nat) : FMState :=
  { flashState := FlashState.closed
    currentSectorValid := false
    lastPacketAddr := 0
    currentWriteBlockAddr := 0
    currentWriteBlockSize := 0
    currentSectorAddr := 0
    currentSectorSize := 0
    pageBufEmpty := true
    pageBuffer := List.replicate bufCap 255 }

/-- FlashManager::flush_current_block (flash_manager.cpp:21): program the
buffered block if non-empty, then clear the buffer and re-aim the block
window at addr rounded down to the block size.  Returns the status, the new
state and the backend events issued. -/
def flush_current_block (intf : FlashIntf) (st : FMState) (addr : Nat) :
    ErrorT × FMState × List Ev :=
  let step :=
    if st.pageBufEmpty = false then
      (intf.programPageRes st.currentWriteBlockAddr
         (st.pageBuffer.take st.currentWriteBlockSize) st.currentWriteBlockSize,
       { st with pageBufEmpty := true },
       [Ev.programPage st.currentWriteBlockAddr
          (st.pageBuffer.take st.currentWriteBlockSize) st.currentWriteBlockSize])
    else (ErrorT.success, st, [])
  match step with
  | (status, st1, evs) =>
    (status,
     { st1 with
        pageBuffer := memsetFF st1.pageBuffer st1.currentWriteBlockSize,
        currentWriteBlockAddr := ROUND_DOWN addr st1.currentWriteBlockSize },
     evs)

/-- FlashManager::setup_next_sector (flash_manager.cpp:39): query the
geometry at addr, align the sector and block windows, optionally re-bind the
flash algorithm, erase the sector, and clear the buffer.  On a backend
failure the backend is uninitialized (events record the uninit call). -/
def setup_next_sector (bufCap : Nat) (intf : FlashIntf) (st : FMState) (addr : Nat) :
    ErrorT × FMState × List Ev :=
  let min_prog_size := intf.progPageMinSize addr
  let sector_size := intf.eraseSecSize addr
  if min_prog_size = 0 ∨ sector_size = 0 then
    (ErrorT.internal, st, [])
  else
    let st1 := { st with
      currentSectorAddr := ROUND_DOWN addr sector_size,
      currentSectorSize := sector_size,
      currentWriteBlockAddr := ROUND_DOWN addr sector_size,
      currentWriteBlockSize := if sector_size ≤ bufCap then sector_size else bufCap }
    let algoEvs := if intf.hasAlgoSet then [Ev.algoSet st1.currentSectorAddr] else []
    let algoStatus := if intf.hasAlgoSet then intf.algoSetRes st1.currentSectorAddr
                      else ErrorT.success
    if algoStatus ≠ ErrorT.success then
      (algoStatus, st1, algoEvs ++ [Ev.intfUninit])
    else
      let eraseStatus := intf.eraseSecRes st1.currentSectorAddr
      if eraseStatus ≠ ErrorT.success then
        (eraseStatus, st1, algoEvs ++ [Ev.eraseSector st1.currentSectorAddr, Ev.intfUninit])
      else
        (ErrorT.success,
         { st1 with pageBuffer := memsetFF st1.pageBuffer st1.currentWriteBlockSize },
         algoEvs ++ [Ev.eraseSector st1.currentSectorAddr])

/-- FlashManager::init (flash_manager.cpp:129): only from Closed; reset all
bookkeeping, then call the backend init; Open only on success. -/
def fm_init (bufCap : Nat) (intf : FlashIntf) (st : FMState) :
    ErrorT × FMState × List Ev :=
  if st.flashState ≠ FlashState.closed then
    (ErrorT.internal, st, [])
  else
    let st1 := { st with
      pageBuffer := List.replicate bufCap 255,
      pageBufEmpty := true,
      currentSectorValid := false,
      currentWriteBlockAddr := 0,
      currentWriteBlockSize := 0,
      currentSectorAddr := 0,
      currentSectorSize := 0,
      lastPacketAddr := 0 }
    if intf.initRes ≠ ErrorT.success then
      (intf.initRes, st1, [Ev.intfInit])
    else
      (ErrorT.success, { st1 with flashState := FlashState.opened }, [Ev.intfInit])

/-- The part of one iteration of the while (true) loop of
FlashManager::write after the flush-if-necessary step (flash_manager.cpp
lines 228-256): the end check, the change-sector-if-necessary step, the
buffer copy, and the jump back to the top of the loop, which is passed in
as rec (the loop with one fuel unit less). -/
def write_loop_rest (bufCap : Nat) (intf : FlashIntf)
    (rec : Nat → List Nat → Nat → FMState → Option (ErrorT × FMState × Nat × List Ev))
    (packet_addr : Nat) (data : List Nat) (size : Nat) (st : FMState) :
    Option (ErrorT × FMState × Nat × List Ev) :=
  -- check for end
  if size = 0 then some (ErrorT.success, st, packet_addr, [])
  else
    -- change sector if necessary
    let step2 :=
      if st.currentSectorAddr + st.currentSectorSize ≤ packet_addr then
        setup_next_sector bufCap intf st packet_addr
      else (ErrorT.success, st, [])
    match step2 with
    | (status2, stB, evs2) =>
      if status2 ≠ ErrorT.success then
        some (status2, stB, packet_addr, evs2)
      else
        -- write buffer
        let copy_start_pos := packet_addr - stB.currentWriteBlockAddr
        let page_buf_left := stB.currentWriteBlockSize - copy_start_pos
        let copy_size := min size page_buf_left
        let stC := { stB with
          pageBuffer := bufWrite stB.pageBuffer copy_start_pos (data.take copy_size),
          pageBufEmpty := copy_size == 0 }
        match rec (packet_addr + copy_size) (data.drop copy_size)
            (size - copy_size) stC with
        | none => none
        | some (statusR, stR, pktR, evsR) =>
          some (statusR, stR, pktR, evs2 ++ evsR)

/-- The while (true) loop of FlashManager::write (flash_manager.cpp:214):
the flush-if-necessary step followed by write_loop_rest.  One fuel unit is
spent per iteration; each iteration with size > 0 and a positive block size
consumes at least one byte, so fuel = size + 1 always suffices there.  When
the block size is zero the C loop never terminates; the model returns none
(out of fuel) in that case.  The Nat result is the final packet_addr (used
for the `_last_packet_addr` assignment). -/
def write_loop (bufCap : Nat) (intf : FlashIntf) :
    Nat → Nat → List Nat → Nat → FMState → Option (ErrorT × FMState × Nat × List Ev)
  | 0, _, _, _, _ => none
  | fuel + 1, packet_addr, data, size, st =>
    -- flush if necessary
    let step1 :=
      if st.currentWriteBlockAddr + st.currentWriteBlockSize ≤ packet_addr then
        flush_current_block intf st packet_addr
      else (ErrorT.success, st, [])
    match step1 with
    | (status1, stA, evs1) =>
      if status1 ≠ ErrorT.success then some (status1, stA, packet_addr, evs1)
      else
        match write_loop_rest bufCap intf (write_loop bufCap intf fuel)
            packet_addr data size stA with
        | none => none
        | some (statusR, stR, pktR, evsR) =>
          some (statusR, stR, pktR, evs1 ++ evsR)

/-- FlashManager::write (flash_manager.cpp:167).  Any backend failure marks
the state Error before returning (lines 186, 199, 209, 223, 241).  On
success the final packet address is stored in lastPacketAddr (line 259).
none is only returned when the C loop would not terminate. -/
def fm_write (bufCap : Nat) (intf : FlashIntf) (st : FMState) (packet_addr : Nat)
    (data : List Nat) (size : Nat) : Option (ErrorT × FMState × List Ev) :=
  if st.flashState ≠ FlashState.opened then
    some (ErrorT.internal, st, [])
  else
    -- setup the current sector if it is not setup already
    let step0 :=
      if st.currentSectorValid = false then
        match setup_next_sector bufCap intf st packet_addr with
        | (status, st1, evs) =>
          if status ≠ ErrorT.success then
            Sum.inl (status, { st1 with flashState := FlashState.error }, evs)
          else
            Sum.inr ({ st1 with currentSectorValid := true, lastPacketAddr := packet_addr },
                     evs)
      else Sum.inr (st, ([] : List Ev))
    match step0 with
    | Sum.inl r => some r
    | Sum.inr (stA, evs0) =>
      -- non-increasing address support (block-window change)
      let step1 :=
        if ROUND_DOWN packet_addr stA.currentWriteBlockSize ≠
            ROUND_DOWN stA.lastPacketAddr stA.currentWriteBlockSize then
          flush_current_block intf stA packet_addr
        else (ErrorT.success, stA, [])
      match step1 with
      | (status1, stB, evs1) =>
        if status1 ≠ ErrorT.success then
          some (status1, { stB with flashState := FlashState.error }, evs0 ++ evs1)
        else
          -- sector-window change
          let step2 :=
            if ROUND_DOWN packet_addr stB.currentSectorSize ≠
                ROUND_DOWN stB.lastPacketAddr stB.currentSectorSize then
              setup_next_sector bufCap intf stB packet_addr
            else (ErrorT.success, stB, [])
          match step2 with
          | (status2, stC, evs2) =>
            if status2 ≠ ErrorT.success then
              some (status2, { stC with flashState := FlashState.error },
                    evs0 ++ evs1 ++ evs2)
            else
              match write_loop bufCap intf (size + 1) packet_addr data size stC with
              | none => none
              | some (statusL, stD, pktL, evsL) =>
                if statusL ≠ ErrorT.success then
                  some (statusL, { stD with flashState := FlashState.error },
                        evs0 ++ evs1 ++ evs2 ++ evsL)
                else
                  some (ErrorT.success, { stD with lastPacketAddr := pktL },
                        evs0 ++ evs1 ++ evs2 ++ evsL)

/-- FlashManager::uninit (flash_manager.cpp:264): rejected from Closed; from
Open the pending block is flushed first (with address 0); the backend uninit
always runs; all bookkeeping is reset to the Closed baseline; a backend
uninit failure takes priority over a flush failure. -/
def fm_uninit (bufCap : Nat) (intf : FlashIntf) (st : FMState) :
    ErrorT × FMState × List Ev :=
  if st.flashState = FlashState.closed then
    (ErrorT.internal, st, [])
  else
    let fw :=
      if st.flashState = FlashState.opened then flush_current_block intf st 0
      else (ErrorT.success, st, [])
    match fw with
    | (flash_write_ret, st1, evs) =>
      let flash_uninit_ret := intf.uninitRes
      let st2 := { st1 with
        pageBuffer := List.replicate bufCap 255,
        pageBufEmpty := true,
        currentSectorValid := false,
        currentWriteBlockAddr := 0,
        currentWriteBlockSize := 0,
        currentSectorAddr := 0,
        currentSectorSize := 0,
        lastPacketAddr := 0,
        flashState := FlashState.closed }
      let ret :=
        if flash_uninit_ret ≠ ErrorT.success then flash_uninit_ret
        else if flash_write_ret ≠ ErrorT.success then flash_write_ret
        else ErrorT.success
      (ret, st2, evs ++ [Ev.intfUninit])

/-- Run a list of write calls (address, bytes), each passing size =
data.length; stop with none as soon as one write fails or diverges.  The
accumulated backend events are returned alongside the final state. -/
def runWrites (bufCap : Nat) (intf : FlashIntf) :
    FMState → List (Nat × List Nat) → Option (FMState × List Ev)
  | st, [] => some (st, [])
  | st, (a, d) :: rest =>
    match fm_write bufCap intf st a d d.length with
    | some (ErrorT.success, st1, evs) =>
      match runWrites bufCap intf st1 rest with
      | some (st2, evs2) => some (st2, evs ++ evs2)
      | none => none
    | _ => none

/-- A whole session: construct, init, a list of successful writes, uninit.
Returns the full backend event trace, or none if init fails or some write
fails/diverges. -/
def runSession (bufCap : Nat) (intf : FlashIntf) (ws : List (Nat × List Nat)) :
    Option (List Ev) :=
  match fm_init bufCap intf (freshFM bufCap) with
  | (ErrorT.success, st0, evs0) =>
    match runWrites bufCap intf st0 ws with
    | some (st1, evs1) => some (evs0 ++ evs1 ++ (fm_uninit bufCap intf st1).2.2)
    | none => none
  | _ => none

/-- The manager state after init and a list of successful writes (no
uninit); none if init or some write fails. -/
def runInitWrites (bufCap : Nat) (intf : FlashIntf) (ws : List (Nat × List Nat)) :
    Option FMState :=
  match fm_init bufCap intf (freshFM bufCap) with
  | (ErrorT.success, st0, _) =>
    match runWrites bufCap intf st0 ws with
    | some (st1, _) => some st1
    | none => none
  | _ => none

/-- erase_before_program ssize evs erased: scanning evs left to right with
the accumulator of sector addresses erased so far, every programPage event
must target an address whose containing sector (address rounded down to
ssize) has already been erased. -/
def erase_before_program (ssize : Nat) : List Ev → List Nat → Bool
  | [], _ => true
  | Ev.eraseSector a :: tl, er => erase_before_program ssize tl (a :: er)
  | Ev.programPage a _ _ :: tl, er =>
    decide (ROUND_DOWN a ssize ∈ er) && erase_before_program ssize tl er
  | _ :: tl, er => erase_before_program ssize tl er

/-- The erased-sector accumulator produced by scanning a trace. -/
def erasedAcc : List Ev → List Nat → List Nat
  | [], er => er
  | Ev.eraseSector a :: tl, er => erasedAcc tl (a :: er)
  | _ :: tl, er => erasedAcc tl er

/-- The programPage events of a trace, as (addr, data, size) triples. -/
def programCalls (evs : List Ev) : List (Nat × List Nat × Nat) :=
  evs.filterMap fun e =>
    match e with
    | Ev.programPage a d s => some (a, d, s)
    | _ => none

/-- The eraseSector events of a trace, in order. -/
def eraseCalls (evs : List Ev) : List Nat :=
  evs.filterMap fun e =>
    match e with
    | Ev.eraseSector a => some a
    | _ => none

/-! Orchestrator model (src/main/programmer.cpp).  File names and paths are
List Char; the filesystem is a predicate supplied by the environment. -/

/-- A decoded cJSON object item: present with a string value, present with a
number value, or present with some other type. -/
inductive JVal where
  | jstr (s : List Char)
  | jnum (n : Nat)
  | jother
deriving DecidableEq

/-- A received command after cJSON_Parse: parseOk models root != NULL, and
each field models cJSON_GetObjectItem on root. -/
structure PCmd where
  parseOk : Bool
  ram_addr : Option JVal
  flash_addr : Option JVal
  program : Option JVal
  algorithm : Option JVal
deriving DecidableEq

/-- What the worker goes on to run after accepting a command: the hex path
programing_hex(cfg, program_path) or the flat-binary path
programming_bin(cfg, flash_addr, program_path) (programmer.cpp:130). -/
inductive Dispatch where
  | hexProg (path : List Char)
  | binProg (flashAddr : Nat) (path : List Char)
deriving DecidableEq

/-- Environment of the worker task: the filesystem (fopen success for a
path), the configured roots, and whether the algorithm extractor succeeds. -/
structure WorkerEnv where
  fileExists : List Char → Bool
  algoRoot : List Char
  progRoot : List Char
  extractOk : List Char → Nat → Bool

/-- The orchestrator fields of programmer_t observable to callers. -/
structure OrchState where
  busy : Bool
  cmd_ret : Bool
  progress : Nat
deriving DecidableEq

/-- strrchr(filename, c): index of the last occurrence of c, if any. -/
def lastIdxOf (s : List Char) (c : Char) : Option Nat :=
  (List.range s.length).foldl
    (fun acc i => if s.get? i = some c then some i else acc) none

/-- programmer_suffix_check (programmer.cpp:28): true when filename has a
last dot, the dot is not its first character, and the tail starting at the
dot equals suffix. -/
def programmer_suffix_check (filename suffix : List Char) : Bool :=
  match lastIdxOf filename '.' with
  | none => false
  | some i => decide (i ≠ 0) && decide (filename.drop i = suffix)

/-- snprintf(path, ..., "%s/%s", root, name) (programmer.cpp:85 and 90);
truncation at CONFIG_PROGRAMMER_FILE_MAX_LEN is not modelled. -/
def resolvePath (root name : List Char) : List Char :=
  root ++ '/' :: name

/-- The literal characters of the ".bin" suffix tested at programmer.cpp:108. -/
def binSuffix : List Char := ['.', 'b', 'i', 'n']

/-- The default RAM load address 0x20000000 (programmer.cpp:71). -/
def defaultRamAddr : Nat := 0x20000000

/-- The RAM load address used for a command: the numeric ram_addr field when
present, else the default (programmer.cpp:102). -/
def ramOf (c : PCmd) : Nat :=
  match c.ram_addr with
  | some (JVal.jnum n) => n
  | _ => defaultRamAddr

/-- One pass of the worker loop body over a received command
(programmer.cpp:74): reset the progress counter, build the two paths,
validate (note the source checks programmer_file_exist(algo_path) twice at
line 94 and never checks program_path), require a numeric flash_addr for a
.bin algorithm, and on acceptance run the extractor and dispatch to the hex
or flat-binary path depending on flash_addr being zero.  Returns the state
after the request completes and the dispatch if one was made. -/
def programmer_handle (env : WorkerEnv) (st : OrchState) (c : PCmd) :
    OrchState × Option Dispatch :=
  -- s_programmer.programmer.reset_progress() runs before any validation
  let st0 := { st with progress := 0 }
  let algo_path := match c.algorithm with
    | some (JVal.jstr s) => resolvePath env.algoRoot s
    | _ => []
  let program_path := match c.program with
    | some (JVal.jstr s) => resolvePath env.progRoot s
    | _ => []
  let algoIsStr := match c.algorithm with
    | some (JVal.jstr _) => true
    | _ => false
  let progIsStr := match c.program with
    | some (JVal.jstr _) => true
    | _ => false
  if c.parseOk = false ∨ c.algorithm = none ∨ c.program = none ∨
      algoIsStr = false ∨ progIsStr = false ∨
      env.fileExists algo_path = false ∨ env.fileExists algo_path = false then
    ({ st0 with cmd_ret := false }, none)
  else
    let ram_addr := ramOf c
    let flash_addr : Nat := 0
    if programmer_suffix_check algo_path binSuffix then
      -- a .bin algorithm requires a numeric flash_addr (programmer.cpp:108)
      match c.flash_addr with
      | some (JVal.jnum v) =>
        let flash_addr := v
        let st1 := { st0 with cmd_ret := true, busy := true }
        let d := if env.extractOk algo_path ram_addr then
            some (if flash_addr = 0 then Dispatch.hexProg program_path
                  else Dispatch.binProg flash_addr program_path)
          else none
        ({ st1 with busy := false }, d)
      | _ => ({ st0 with cmd_ret := false }, none)
    else
      let st1 := { st0 with cmd_ret := true, busy := true }
      let d := if env.extractOk algo_path ram_addr then
          some (if flash_addr = 0 then Dispatch.hexProg program_path
                else Dispatch.binProg flash_addr program_path)
        else none
      ({ st1 with busy := false }, d)

/-- programmer_put_cmd (programmer.cpp:154): reject immediately while busy;
otherwise hand the command to the worker, wait for the handshake and return
s_programmer.cmd_ret.  The returned state is the one after the request has
been fully processed. -/
def programmer_put_cmd (env : WorkerEnv) (st : OrchState) (c : PCmd) :
    Bool × OrchState × Option Dispatch :=
  if st.busy then (false, st, none)
  else
    match programmer_handle env st c with
    | (st1, d) => (st1.cmd_ret, st1, d)

/-! Concrete backends and inputs used by the scenario theorems,
counterexamples and witnesses. -/

/-- Backend with the Scenario A and C geometry: uniform erase-unit size 4096
and minimum program size 256, every operation succeeding, no optional
flash_algo_set hook. -/
def intfA : FlashIntf :=
  { initRes := ErrorT.success
    uninitRes := ErrorT.success
    progPageMinSize := fun _ => 256
    eraseSecSize := fun _ => 4096
    eraseSecRes := fun _ => ErrorT.success
    programPageRes := fun _ _ _ => ErrorT.success
    hasAlgoSet := false
    algoSetRes := fun _ => ErrorT.success }

/-- Backend with erase-unit size 12, which is not a multiple of the 8-byte
page buffer used with it; every operation succeeds. -/
def intfB : FlashIntf :=
  { intfA with progPageMinSize := fun _ => 4, eraseSecSize := fun _ => 12 }

/-- Backend like intfA whose program_page always fails with error code 7. -/
def intfF : FlashIntf :=
  { intfA with programPageRes := fun _ _ _ => ErrorT.fail 7 }

/-- The 10 data bytes of the first Scenario A write. -/
def c4_d1 : List Nat := [1, 2, 3, 4, 5, 6, 7, 8, 9, 10]

/-- The 10 data bytes of the second Scenario A write. -/
def c4_d2 : List Nat := [11, 12, 13, 14, 15, 16, 17, 18, 19, 20]

/-- FlashManager state right after a successful init against intfA with a
256-byte page buffer. -/
def stOpenA : FMState := (fm_init 256 intfA (freshFM 256)).2.1

/-- Scenario A run: write(0, 10 bytes) then write(300, 10 bytes) from the
freshly initialized manager. -/
def c4_run : Option (FMState × List Ev) :=
  runWrites 256 intfA stOpenA [(0, c4_d1), (300, c4_d2)]

/-- The 20 data bytes of the Scenario C write (values 100..119). -/
def c5_data : List Nat := (List.range 20).map (fun i => i + 100)

/-- Scenario C single write: write(4090, 20 bytes) on the freshly
initialized manager. -/
def c5_run : Option (ErrorT × FMState × List Ev) :=
  fm_write 256 intfA stOpenA 4090 c5_data 20

/-- Scenario C full session (init, the one write, uninit). -/
def c5_session : Option (List Ev) := runSession 256 intfA [(4090, c5_data)]

/-- The modulo divisor used by the ROUND_DOWN at flash_manager.cpp:34, the
single arithmetic step of flush_current_block outside the program_page call:
the current write block size. -/
def flushRoundDivisor (st : FMState) : Nat := st.currentWriteBlockSize

/-- State reached against the failing backend intfF after init and a
successful write(0, [1]) that only buffers its byte. -/
def c2_st1 : FMState :=
  ((fm_write 256 intfF ((fm_init 256 intfF (freshFM 256)).2.1) 0 [1] 1).getD
    (ErrorT.success, freshFM 256, [])).2.1

/-- The failing run for C2: the buffered block must be flushed because
address 300 is in a different block window than the last address 1, and
program_page fails. -/
def c2_run : Option (ErrorT × FMState × List Ev) :=
  fm_write 256 intfF c2_st1 300 [2] 1

/-- File name algo.elf. -/
def c1_algoName : List Char := ['a', 'l', 'g', 'o', '.', 'e', 'l', 'f']

/-- File name missing.hex. -/
def c1_progName : List Char := ['m', 'i', 's', 's', 'i', 'n', 'g', '.', 'h', 'e', 'x']

/-- Worker environment in which only the resolved algorithm file exists: the
resolved image file missing.hex does not. -/
def c1_env : WorkerEnv :=
  { fileExists := fun p => p == resolvePath ['a'] c1_algoName
    algoRoot := ['a']
    progRoot := ['p']
    extractOk := fun _ _ => true }

/-- Command naming the existing algorithm file and the missing image file. -/
def c1_cmd : PCmd :=
  { parseOk := true
    ram_addr := none
    flash_addr := none
    program := some (JVal.jstr c1_progName)
    algorithm := some (JVal.jstr c1_algoName) }

/-- Idle orchestrator state with a stale progress value 55 from an earlier
request. -/
def c8_st : OrchState := { busy := false, cmd_ret := true, progress := 55 }

/-- A malformed command: cJSON_Parse returned NULL. -/
def c8_cmd : PCmd :=
  { parseOk := false, ram_addr := none, flash_addr := none,
    program := none, algorithm := none }

/-- File name algo.bin. -/
def c10_algoName : List Char := ['a', 'l', 'g', 'o', '.', 'b', 'i', 'n']

/-- Worker environment for the C10 witness: both resolved files exist and
extraction succeeds. -/
def c10_env : WorkerEnv :=
  { fileExists := fun _ => true
    algoRoot := ['a']
    progRoot := ['p']
    extractOk := fun _ _ => true }

/-- A .bin request whose flash_addr field is the number 0. -/
def c10_cmd : PCmd :=
  { parseOk := true
    ram_addr := none
    flash_addr := some (JVal.jnum 0)
    program := some (JVal.jstr c1_progName)
    algorithm := some (JVal.jstr c10_algoName) }

/-- Session of the C3 counterexample: buffer capacity 8 against the
sector-size-12 backend, a forward write then a backward write inside the
same sector but a lower block window, then uninit. -/
def c3_session : Option (List Ev) :=
  runSession 8 intfB [(13, [1, 2, 3, 4, 5, 6]), (13, [7])]

/-- Reachable state of the C6 counterexample: buffer capacity 8 against the
sector-size-12 backend after one successful one-byte write at address 13. -/
def c6_reached : Option FMState := runInitWrites 8 intfB [(13, [1])]

/-- Invariant of the write_loop of FlashManager::write while processing
packet address packet, for the uniform geometry (every erase unit ssize
bytes, write block size min ssize bufCap), relative to the list er of sector
addresses erased so far in the session. -/
structure LoopInv (bufCap ssize : Nat) (er : List Nat) (st : FMState)
    (packet : Nat) : Prop where
  stOpen : st.flashState = FlashState.opened
  valid : st.currentSectorValid = true
  sSize : st.currentSectorSize = ssize
  bSize : st.currentWriteBlockSize = min ssize bufCap
  sAligned : st.currentSectorAddr % ssize = 0
  bAligned : st.currentWriteBlockAddr % min ssize bufCap = 0
  sErased : st.currentSectorAddr ∈ er
  bufOk : st.pageBufEmpty = false → ROUND_DOWN st.currentWriteBlockAddr ssize ∈ er
  sLe : st.currentSectorAddr ≤ packet
  bLe : st.currentWriteBlockAddr ≤ packet
  sbLe : st.currentSectorAddr ≤ st.currentWriteBlockAddr

/-- Between-calls invariant of an Open FlashManager whose sector is valid:
LoopInv at the recorded last packet address, with the block window equal to
that address rounded down to the block size. -/
structure GoodValid (bufCap ssize : Nat) (er : List Nat) (st : FMState) : Prop where
  stOpen : st.flashState = FlashState.opened
  valid : st.currentSectorValid = true
  sSize : st.currentSectorSize = ssize
  bSize : st.currentWriteBlockSize = min ssize bufCap
  sAligned : st.currentSectorAddr % ssize = 0
  bAligned : st.currentWriteBlockAddr % min ssize bufCap = 0
  sErased : st.currentSectorAddr ∈ er
  bufOk : st.pageBufEmpty = false → ROUND_DOWN st.currentWriteBlockAddr ssize ∈ er
  sLast : st.currentSectorAddr ≤ st.lastPacketAddr
  bLast : st.currentWriteBlockAddr = ROUND_DOWN st.lastPacketAddr (min ssize bufCap)

/-- Between-calls invariant of an Open FlashManager: either no sector has
been set up yet and the buffer is still empty (the post-init state), or the
valid-sector invariant holds. -/
def FMGood (bufCap ssize : Nat) (er : List Nat) (st : FMState) : Prop :=
  st.flashState = FlashState.opened ∧
  ((st.currentSectorValid = false ∧ st.pageBufEmpty = true) ∨
   (st.currentSectorValid = true ∧ GoodValid bufCap ssize er st))

/-! Theorems. -/

set_option maxRecDepth 100000

/-- Claim C4: with block size 256, sector size 4096 and buffer capacity 256,
write(0, 10 bytes) then write(300, 10 bytes) from a freshly initialized
manager issues exactly one program_page call, at address 0 with length 256,
whose first 10 bytes are the written data and whose remaining 246 bytes are
0xFF; afterwards the second write sits buffered in the block window starting
at address 256 (its bytes at buffer offsets 44..53, every other cell 0xFF),
with the buffer marked non-empty. -/
theorem C4_scenarioA :
    (c4_run.map fun r => programCalls r.2) =
      some [(0, c4_d1 ++ List.replicate 246 255, 256)] ∧
    (c4_run.map fun r =>
        (r.1.currentWriteBlockAddr, r.1.pageBufEmpty, r.1.pageBuffer)) =
      some (256, false,
        List.replicate 44 255 ++ c4_d2 ++ List.replicate 202 255) := by
  constructor <;> decide

/-- Claim C5, counterexample: the single write(4090, 20 bytes) on a freshly
initialized manager does trigger exactly the two erase calls at 0 and 4096,
but issues only ONE program_page call during the write (the claim requires
the 20 bytes to be split across two program_page calls by that write). -/
theorem C5_counterexample :
    (c5_run.map fun r => (r.1, eraseCalls r.2.2, (programCalls r.2.2).length)) =
      some (ErrorT.success, [0, 4096], 1) := by decide

/-- Claim C5, amended: the write itself triggers exactly two erase_sector
calls (sectors 0 and 4096) and one program_page call at block address 3840
carrying the 6 bytes before the boundary (buffer offsets 250..255); the 14
bytes after the boundary stay buffered at block address 4096 and are
programmed by the next flush, here the session-ending uninit, so that over
the session the 20 bytes are split across the two block-aligned
program_page calls at 3840 and 4096. -/
theorem C5_amended_session :
    (c5_session.map fun tr => (eraseCalls tr, programCalls tr)) =
      some ([0, 4096],
        [(3840, List.replicate 250 255 ++ c5_data.take 6, 256),
         (4096, c5_data.drop 6 ++ List.replicate 242 255, 256)]) := by decide

/-- Claim C9, counterexample: after a fresh init (no write yet) the manager
is Open with currentWriteBlockSize = 0, so the flush performed by uninit
evaluates ROUND_DOWN(0, 0) at flash_manager.cpp:34 — a modulo whose divisor,
the current block size, is zero and is not guarded anywhere on that path,
contradicting the claim that no unguarded zero-divisor arithmetic occurs. -/
theorem C9_counterexample :
    stOpenA.flashState = FlashState.opened ∧
    stOpenA.currentSectorValid = false ∧
    flushRoundDivisor stOpenA = 0 := by decide

/-- Claim C9, amended: uninit straight after a successful init reaches the
flush with a zero modulo divisor (undefined behaviour in C); under the total
semantics x % 0 = x used by this model the flush programs nothing, and
uninit returns the backend uninit result with every field reset to the
constructed (Closed) baseline; the only backend event is the uninit call. -/
theorem C9_amended (bufCap : Nat) (intf : FlashIntf)
    (h : intf.initRes = ErrorT.success) :
    fm_uninit bufCap intf ((fm_init bufCap intf (freshFM bufCap)).2.1) =
      (intf.uninitRes, freshFM bufCap, [Ev.intfUninit]) := by
  simp only [fm_init, freshFM, flush_current_block, fm_uninit, memsetFF,
    ROUND_DOWN, h]
  simp [freshFM, flush_current_block, memsetFF, ROUND_DOWN]
  exact fun h2 => h2.symm

/-- Witness for C9_amended at the concrete backend intfA with buffer
capacity 256. -/
theorem C9_amended_witness :
    fm_uninit 256 intfA ((fm_init 256 intfA (freshFM 256)).2.1) =
      (intfA.uninitRes, freshFM 256, [Ev.intfUninit]) :=
  C9_amended 256 intfA rfl

/-- Claim C2, counterexample: in the Open state with a buffered byte, a
write whose address 300 moves to a new block window flushes, the backend
program_page fails with error 7, the write returns that error with the state
set to Error — but the trace contains NO backend uninit call, contradicting
the claim that write invokes the backend uninit before returning. -/
theorem C2_counterexample :
    (c2_run.map fun r =>
        (r.1, r.2.1.flashState, (programCalls r.2.2).length,
         decide (Ev.intfUninit ∈ r.2.2))) =
      some (ErrorT.fail 7, FlashState.error, 1, false) := by decide

/-- Claim C2, amended: when a write in the Open state (valid sector,
non-empty buffer) must flush because the address moved to a different block
window, and the backend program_page fails, the write returns that backend
error with the manager state set to Error — but the backend uninit is NOT
invoked on this path (the manager calls the backend uninit only on
setup_next_sector failures); the only backend event is the failed
program_page itself. -/
theorem C2_flush_failure (bufCap : Nat) (intf : FlashIntf) (st : FMState)
    (packet : Nat) (data : List Nat) (size : Nat) (e : ErrorT)
    (hopen : st.flashState = FlashState.opened)
    (hvalid : st.currentSectorValid = true)
    (hne : st.pageBufEmpty = false)
    (hblk : ROUND_DOWN packet st.currentWriteBlockSize ≠
      ROUND_DOWN st.lastPacketAddr st.currentWriteBlockSize)
    (hfail : intf.programPageRes st.currentWriteBlockAddr
      (st.pageBuffer.take st.currentWriteBlockSize) st.currentWriteBlockSize = e)
    (he : e ≠ ErrorT.success) :
    fm_write bufCap intf st packet data size =
      some (e,
        { st with
            pageBufEmpty := true,
            pageBuffer := memsetFF st.pageBuffer st.currentWriteBlockSize,
            currentWriteBlockAddr := ROUND_DOWN packet st.currentWriteBlockSize,
            flashState := FlashState.error },
        [Ev.programPage st.currentWriteBlockAddr
          (st.pageBuffer.take st.currentWriteBlockSize) st.currentWriteBlockSize]) ∧
    Ev.intfUninit ∉
      [Ev.programPage st.currentWriteBlockAddr
        (st.pageBuffer.take st.currentWriteBlockSize) st.currentWriteBlockSize] := by
  refine ⟨?_, by simp⟩
  simp [fm_write, flush_current_block, hopen, hvalid, hne, hfail, hblk, he]

/-- Witness for C2_flush_failure: the concrete failing backend intfF and the
state c2_st1 holding one buffered byte; write(300, [2]) flushes and fails. -/
theorem C2_flush_failure_witness :
    fm_write 256 intfF c2_st1 300 [2] 1 =
      some (ErrorT.fail 7,
        { c2_st1 with
            pageBufEmpty := true,
            pageBuffer := memsetFF c2_st1.pageBuffer c2_st1.currentWriteBlockSize,
            currentWriteBlockAddr := ROUND_DOWN 300 c2_st1.currentWriteBlockSize,
            flashState := FlashState.error },
        [Ev.programPage c2_st1.currentWriteBlockAddr
          (c2_st1.pageBuffer.take c2_st1.currentWriteBlockSize)
          c2_st1.currentWriteBlockSize]) ∧
    Ev.intfUninit ∉
      [Ev.programPage c2_st1.currentWriteBlockAddr
        (c2_st1.pageBuffer.take c2_st1.currentWriteBlockSize)
        c2_st1.currentWriteBlockSize] :=
  C2_flush_failure 256 intfF c2_st1 300 [2] 1 (ErrorT.fail 7)
    (by decide) (by decide) (by decide) (by decide) (by decide) (by decide)

/-- Claim C1: the source validates with
!programmer_file_exist(algo_path) || !programmer_file_exist(algo_path)
(programmer.cpp:94) — the same algorithm path twice — so the resolved image
file is never checked: a command whose algorithm file exists but whose image
file does not is ACCEPTED (handshake result true) and dispatched, evaluating
the code at the failing input of the claim. -/
theorem C1_missing_image_accepted :
    c1_env.fileExists (resolvePath c1_env.progRoot c1_progName) = false ∧
    c1_env.fileExists (resolvePath c1_env.algoRoot c1_algoName) = true ∧
    (programmer_put_cmd c1_env
        { busy := false, cmd_ret := false, progress := 0 } c1_cmd).1 = true := by
  decide

/-- Claim C7: a submit while busy returns false and changes nothing: the
orchestrator state is returned untouched, no command is handed to the
worker, no handshake happens and no dispatch (hence no FlashManager or
backend activity) occurs. -/
theorem C7_busy_reject (env : WorkerEnv) (st : OrchState) (c : PCmd)
    (h : st.busy = true) :
    programmer_put_cmd env st c = (false, st, none) := by
  simp [programmer_put_cmd, h]

/-- Witness for C7_busy_reject at a concrete busy state and command. -/
theorem C7_busy_reject_witness :
    programmer_put_cmd c10_env
        { busy := true, cmd_ret := true, progress := 41 } c10_cmd =
      (false, { busy := true, cmd_ret := true, progress := 41 }, none) :=
  C7_busy_reject c10_env { busy := true, cmd_ret := true, progress := 41 }
    c10_cmd rfl

/-- Claim C8, counterexample: a malformed command submitted from an idle
orchestrator whose progress counter reads 55 is rejected, but the rejection
resets the progress counter to 0 (reset_progress runs before validation at
programmer.cpp:81), so the counter does NOT retain its prior value. -/
theorem C8_counterexample :
    (programmer_put_cmd c10_env c8_st c8_cmd).1 = false ∧
    (programmer_put_cmd c10_env c8_st c8_cmd).2.1.progress = 0 ∧
    (programmer_put_cmd c10_env c8_st c8_cmd).2.1.progress ≠ 55 := by decide

/-- Claim C8, amended: a command rejected at submit time (any of the
rejection paths: malformed, missing field, wrong type, failed file check,
or .bin without a numeric flash_addr) produces accepted = false, makes no
dispatch (so nothing reaches the FlashManager or backend), leaves busy
unchanged — its only side effects are resetting the progress counter to 0
and recording the false handshake result. -/
theorem C8_reject_effects (env : WorkerEnv) (st : OrchState) (c : PCmd)
    (hb : st.busy = false)
    (hrej : (programmer_put_cmd env st c).1 = false) :
    programmer_put_cmd env st c =
      (false, { st with progress := 0, cmd_ret := false }, none) := by
  rcases c with ⟨pk, ra, fa, pr, al⟩
  cases pk <;> rcases al with _ | ⟨s | n | _⟩ <;> rcases pr with _ | ⟨s2 | n2 | _⟩ <;>
    rcases fa with _ | ⟨s3 | n3 | _⟩ <;>
    simp_all [programmer_put_cmd, programmer_handle, hb] <;>
    split_ifs at hrej <;> simp_all

/-- Witness for C8_reject_effects at the concrete malformed command. -/
theorem C8_reject_effects_witness :
    programmer_put_cmd c10_env c8_st c8_cmd =
      (false, { c8_st with progress := 0, cmd_ret := false }, none) :=
  C8_reject_effects c10_env c8_st c8_cmd rfl (by decide)

/-- Claim C10: an accepted request whose algorithm path passes the .bin
suffix check and which supplies a numeric flash_addr v is accepted, and the
worker dispatches to the flat-binary path programming_bin if and only if v
is nonzero: with v = 0 the request still passes validation but the
`if (!flash_addr)` at programmer.cpp:130 sends it down the hex path. -/
theorem C10_bin_dispatch (env : WorkerEnv) (st : OrchState) (c : PCmd)
    (aName pName : List Char) (v : Nat)
    (hb : st.busy = false)
    (hparse : c.parseOk = true)
    (halgo : c.algorithm = some (JVal.jstr aName))
    (hprog : c.program = some (JVal.jstr pName))
    (hfs : env.fileExists (resolvePath env.algoRoot aName) = true)
    (hbin : programmer_suffix_check (resolvePath env.algoRoot aName) binSuffix = true)
    (hflash : c.flash_addr = some (JVal.jnum v))
    (hex : env.extractOk (resolvePath env.algoRoot aName) (ramOf c) = true) :
    programmer_put_cmd env st c =
      (true, { st with progress := 0, cmd_ret := true, busy := false },
       some (if v = 0 then Dispatch.hexProg (resolvePath env.progRoot pName)
             else Dispatch.binProg v (resolvePath env.progRoot pName))) := by
  simp [programmer_put_cmd, programmer_handle, hb, hparse, halgo, hprog, hfs,
    hbin, hflash, hex]

/-- Witness for C10_bin_dispatch: a .bin request carrying flash_addr = 0 is
accepted and dispatched to the hex path. -/
theorem C10_bin_dispatch_witness :
    programmer_put_cmd c10_env
        { busy := false, cmd_ret := false, progress := 7 } c10_cmd =
      (true, { busy := false, cmd_ret := true, progress := 0 },
       some (if 0 = 0 then
               Dispatch.hexProg (resolvePath c10_env.progRoot c1_progName)
             else Dispatch.binProg 0 (resolvePath c10_env.progRoot c1_progName))) :=
  C10_bin_dispatch c10_env { busy := false, cmd_ret := false, progress := 7 }
    c10_cmd c10_algoName c1_progName 0 rfl rfl rfl rfl (by decide) (by decide)
    rfl (by decide)

/-- Claim C3, counterexample: against a backend reporting erase-unit size 12
with an 8-byte page buffer (block size 8, which does not divide 12), the
session init; write(13, 6 bytes); write(13, 1 byte); uninit — all writes
successful — erases only sector 12, yet its final flush issues a
program_page at address 8, inside sector 0, which was never erased. -/
theorem C3_counterexample :
    (c3_session.map fun tr => erase_before_program 12 tr []) = some false ∧
    (c3_session.map fun tr =>
        (eraseCalls tr, (programCalls tr).map fun t => (t.1, ROUND_DOWN t.1 12))) =
      some ([12], [(12, 12), (8, 0)]) := by
  constructor <;> decide

/-- Claim C6, counterexample: the same geometry (erase-unit 12, buffer
capacity 8) reaches, via init and one successful write(13, 1 byte), a state
with a valid sector where currentWriteBlockAddr = 12 is NOT aligned to
currentWriteBlockSize = 8 (12 mod 8 = 4), because setup_next_sector aims the
block window at the sector-aligned address. -/
theorem C6_counterexample :
    (c6_reached.map fun st =>
        (st.currentSectorValid, st.currentWriteBlockAddr,
         st.currentWriteBlockSize,
         st.currentWriteBlockAddr % st.currentWriteBlockSize,
         st.currentSectorAddr % st.currentSectorSize)) =
      some (true, 12, 8, 4, 0) := by decide

/-! Arithmetic lemmas about ROUND_DOWN. -/

theorem rdown_le (v b : Nat) : ROUND_DOWN v b ≤ v :=
  Nat.sub_le v (v % b)

theorem rdown_eq_mul_div (v b : Nat) : ROUND_DOWN v b = b * (v / b) := by
  have h := Nat.div_add_mod v b
  unfold ROUND_DOWN
  omega

theorem rdown_mod (v b : Nat) : ROUND_DOWN v b % b = 0 := by
  rw [rdown_eq_mul_div]
  exact Nat.mul_mod_right b (v / b)

theorem rdown_of_aligned {a b : Nat} (h : a % b = 0) : ROUND_DOWN a b = a := by
  simp [ROUND_DOWN, h]

theorem lt_rdown_add {v b : Nat} (hb : b ≠ 0) : v < ROUND_DOWN v b + b := by
  have h1 : v % b < b := Nat.mod_lt v (Nat.pos_of_ne_zero hb)
  have h2 : v % b ≤ v := Nat.mod_le v b
  unfold ROUND_DOWN
  omega

theorem le_rdown {a v b : Nat} (ha : a % b = 0) (h : a ≤ v) :
    a ≤ ROUND_DOWN v b := by
  rcases Nat.eq_zero_or_pos b with hb | hb
  · subst hb
    simp only [Nat.mod_zero] at ha
    simp [ha]
  · obtain ⟨k, hk⟩ := Nat.dvd_of_mod_eq_zero ha
    rw [rdown_eq_mul_div]
    subst hk
    refine Nat.mul_le_mul_left b ?_
    rw [Nat.le_div_iff_mul_le hb, Nat.mul_comm]
    exact h

theorem rdown_unique {a v b : Nat} (ha : a % b = 0) (h1 : a ≤ v)
    (h2 : v < a + b) : ROUND_DOWN v b = a := by
  obtain ⟨k, hk⟩ := Nat.dvd_of_mod_eq_zero ha
  have hv : v = b * k + (v - a) := by omega
  have hm : v % b = v - a := by
    conv_lhs => rw [hv]
    rw [Nat.mul_add_mod]
    exact Nat.mod_eq_of_lt (by omega)
  unfold ROUND_DOWN
  omega

theorem mod_eq_zero_trans {x s b : Nat} (hx : x % s = 0) (hd : b ∣ s) :
    x % b = 0 := by
  obtain ⟨k, hk⟩ := hd.trans (Nat.dvd_of_mod_eq_zero hx)
  subst hk
  exact Nat.mul_mod_right b k

theorem min_ne_zero {a b : Nat} (ha : a ≠ 0) (hb : b ≠ 0) : min a b ≠ 0 := by
  rcases Nat.le_total a b with h | h
  · rw [Nat.min_eq_left h]; exact ha
  · rw [Nat.min_eq_right h]; exact hb

/-! Trace lemmas about erase_before_program and erasedAcc. -/

theorem ebp_append (ssize : Nat) (l1 l2 : List Ev) (er : List Nat) :
    erase_before_program ssize (l1 ++ l2) er =
      (erase_before_program ssize l1 er &&
       erase_before_program ssize l2 (erasedAcc l1 er)) := by
  induction l1 generalizing er with
  | nil => simp [erase_before_program, erasedAcc]
  | cons h t ih =>
    cases h <;> simp [erase_before_program, erasedAcc, ih, Bool.and_assoc]

theorem erasedAcc_append (l1 l2 : List Ev) (er : List Nat) :
    erasedAcc (l1 ++ l2) er = erasedAcc l2 (erasedAcc l1 er) := by
  induction l1 generalizing er with
  | nil => simp [erasedAcc]
  | cons h t ih => cases h <;> simp [erasedAcc, ih]

theorem mem_erasedAcc {a : Nat} (l : List Ev) (er : List Nat) (h : a ∈ er) :
    a ∈ erasedAcc l er := by
  induction l generalizing er with
  | nil => simpa [erasedAcc]
  | cons hd t ih =>
    cases hd <;> simp only [erasedAcc] <;> exact ih _ (by simp [h])

/-! Specification lemmas for the two internal steps of write. -/

theorem flush_cases (intf : FlashIntf) (st : FMState) (addr : Nat) :
    (st.pageBufEmpty = true ∧
      flush_current_block intf st addr =
        (ErrorT.success,
         { st with
             pageBufEmpty := true,
             pageBuffer := memsetFF st.pageBuffer st.currentWriteBlockSize,
             currentWriteBlockAddr := ROUND_DOWN addr st.currentWriteBlockSize },
         [])) ∨
    (st.pageBufEmpty = false ∧
      flush_current_block intf st addr =
        (intf.programPageRes st.currentWriteBlockAddr
           (st.pageBuffer.take st.currentWriteBlockSize) st.currentWriteBlockSize,
         { st with
             pageBufEmpty := true,
             pageBuffer := memsetFF st.pageBuffer st.currentWriteBlockSize,
             currentWriteBlockAddr := ROUND_DOWN addr st.currentWriteBlockSize },
         [Ev.programPage st.currentWriteBlockAddr
            (st.pageBuffer.take st.currentWriteBlockSize)
            st.currentWriteBlockSize])) := by
  cases hpe : st.pageBufEmpty with
  | true =>
    refine Or.inl ⟨rfl, ?_⟩
    unfold flush_current_block
    simp [hpe]
  | false =>
    refine Or.inr ⟨rfl, ?_⟩
    unfold flush_current_block
    simp [hpe]

theorem setup_success_spec (bufCap ssize : Nat) (intf : FlashIntf)
    (st : FMState) (addr : Nat)
    (hss : intf.eraseSecSize addr = ssize) (hSS : ssize ≠ 0)
    (hmp : intf.progPageMinSize addr ≠ 0)
    (hsucc : (setup_next_sector bufCap intf st addr).1 = ErrorT.success) :
    setup_next_sector bufCap intf st addr =
      (ErrorT.success,
       { st with
           currentSectorAddr := ROUND_DOWN addr ssize,
           currentSectorSize := ssize,
           currentWriteBlockAddr := ROUND_DOWN addr ssize,
           currentWriteBlockSize := min ssize bufCap,
           pageBuffer := memsetFF st.pageBuffer (min ssize bufCap) },
       (if intf.hasAlgoSet then [Ev.algoSet (ROUND_DOWN addr ssize)] else []) ++
         [Ev.eraseSector (ROUND_DOWN addr ssize)]) := by
  have hmin : (if ssize ≤ bufCap then ssize else bufCap) = min ssize bufCap := by
    rw [Nat.min_def]
  unfold setup_next_sector at hsucc ⊢
  rw [hss] at hsucc ⊢
  rw [if_neg (by simp [hmp, hSS])] at hsucc ⊢
  rw [hmin] at hsucc ⊢
  by_cases h1 : intf.algoSetRes (ROUND_DOWN addr ssize) = ErrorT.success <;>
    by_cases h2 : intf.eraseSecRes (ROUND_DOWN addr ssize) = ErrorT.success <;>
    cases hA : intf.hasAlgoSet <;> simp_all

theorem ebp_algo_erase (ssize x y : Nat) (b : Bool) (er : List Nat) :
    erase_before_program ssize
      ((if b then [Ev.algoSet x] else []) ++ [Ev.eraseSector y]) er = true := by
  cases b <;> simp [erase_before_program]

theorem erasedAcc_algo_erase (x y : Nat) (b : Bool) (er : List Nat) :
    erasedAcc ((if b then [Ev.algoSet x] else []) ++ [Ev.eraseSector y]) er =
      y :: er := by
  cases b <;> simp [erasedAcc]

/-! Invariant-transfer lemmas for the write loop. -/

theorem goodvalid_of_loopinv (bufCap ssize : Nat) (er : List Nat)
    (st : FMState) (packet : Nat)
    (inv : LoopInv bufCap ssize er st packet)
    (hup : st.currentWriteBlockAddr = ROUND_DOWN packet (min ssize bufCap)) :
    GoodValid bufCap ssize er { st with lastPacketAddr := packet } := by
  refine ⟨inv.stOpen, inv.valid, inv.sSize, inv.bSize, inv.sAligned,
    inv.bAligned, inv.sErased, inv.bufOk, ?_, ?_⟩
  · exact inv.sLe
  · exact hup

theorem loopinv_after_flush (bufCap ssize : Nat) (er : List Nat)
    (st : FMState) (packet : Nat)
    (hSS : ssize ≠ 0) (hcap : bufCap ≠ 0) (hdvd : min ssize bufCap ∣ ssize)
    (inv : LoopInv bufCap ssize er st packet) :
    LoopInv bufCap ssize er
      { st with
          pageBufEmpty := true,
          pageBuffer := memsetFF st.pageBuffer st.currentWriteBlockSize,
          currentWriteBlockAddr := ROUND_DOWN packet st.currentWriteBlockSize }
      packet := by
  have hbs : st.currentSectorAddr % min ssize bufCap = 0 :=
    mod_eq_zero_trans inv.sAligned hdvd
  refine ⟨inv.stOpen, inv.valid, inv.sSize, inv.bSize, inv.sAligned, ?_,
    inv.sErased, ?_, inv.sLe, ?_, ?_⟩
  · simp only [inv.bSize]
    exact rdown_mod packet (min ssize bufCap)
  · simp
  · simp only [inv.bSize]
    exact Nat.le_trans (rdown_le packet (min ssize bufCap)) (Nat.le_refl packet)
  · simp only [inv.bSize]
    exact le_rdown hbs inv.sLe

theorem loopinv_after_setup (bufCap ssize : Nat) (er : List Nat)
    (st : FMState) (packet : Nat)
    (hSS : ssize ≠ 0) (hcap : bufCap ≠ 0) (hdvd : min ssize bufCap ∣ ssize)
    (hopen : st.flashState = FlashState.opened)
    (hvalid : st.currentSectorValid = true) :
    LoopInv bufCap ssize (ROUND_DOWN packet ssize :: er)
      { st with
          currentSectorAddr := ROUND_DOWN packet ssize,
          currentSectorSize := ssize,
          currentWriteBlockAddr := ROUND_DOWN packet ssize,
          currentWriteBlockSize := min ssize bufCap,
          pageBuffer := memsetFF st.pageBuffer (min ssize bufCap) }
      packet := by
  refine ⟨hopen, hvalid, rfl, rfl, ?_, ?_, ?_, ?_, ?_, ?_, ?_⟩
  · exact rdown_mod packet ssize
  · exact mod_eq_zero_trans (rdown_mod packet ssize) hdvd
  · simp
  · intro _
    simp only []
    rw [rdown_of_aligned (rdown_mod packet ssize)]
    simp
  · exact rdown_le packet ssize
  · exact rdown_le packet ssize
  · exact Nat.le_refl _

theorem loopinv_after_copy (bufCap ssize : Nat) (er : List Nat)
    (st : FMState) (packet copy : Nat) (buf2 : List Nat)
    (inv : LoopInv bufCap ssize er st packet)
    (hsec : packet < st.currentSectorAddr + ssize) :
    LoopInv bufCap ssize er
      { st with pageBuffer := buf2, pageBufEmpty := (copy == 0) }
      (packet + copy) := by
  have hb : ROUND_DOWN st.currentWriteBlockAddr ssize = st.currentSectorAddr :=
    rdown_unique inv.sAligned inv.sbLe
      (Nat.lt_of_le_of_lt inv.bLe hsec)
  refine ⟨inv.stOpen, inv.valid, inv.sSize, inv.bSize, inv.sAligned,
    inv.bAligned, inv.sErased, ?_, ?_, ?_, inv.sbLe⟩
  · intro _
    simp only []
    rw [hb]
    exact inv.sErased
  · exact Nat.le_trans inv.sLe (Nat.le_add_right packet copy)
  · exact Nat.le_trans inv.bLe (Nat.le_add_right packet copy)

theorem write_loop_rest_inv (bufCap ssize : Nat) (intf : FlashIntf)
    (hSS : ssize ≠ 0) (hcap : bufCap ≠ 0) (hdvd : min ssize bufCap ∣ ssize)
    (hssu : ∀ a, intf.eraseSecSize a = ssize)
    (hmpu : ∀ a, intf.progPageMinSize a ≠ 0)
    (rec : Nat → List Nat → Nat → FMState → Option (ErrorT × FMState × Nat × List Ev))
    (hrec : ∀ (packet : Nat) (data : List Nat) (size : Nat) (st : FMState)
        (er : List Nat) (res : ErrorT × FMState × Nat × List Ev),
        LoopInv bufCap ssize er st packet →
        rec packet data size st = some res →
        res.1 = ErrorT.success →
        erase_before_program ssize res.2.2.2 er = true ∧
        GoodValid bufCap ssize (erasedAcc res.2.2.2 er)
          { res.2.1 with lastPacketAddr := res.2.2.1 })
    (packet : Nat) (data : List Nat) (size : Nat) (st : FMState)
    (er : List Nat) (res : ErrorT × FMState × Nat × List Ev)
    (inv : LoopInv bufCap ssize er st packet)
    (hup : st.currentWriteBlockAddr = ROUND_DOWN packet (min ssize bufCap))
    (hrun : write_loop_rest bufCap intf rec packet data size st = some res)
    (hsucc : res.1 = ErrorT.success) :
    erase_before_program ssize res.2.2.2 er = true ∧
    GoodValid bufCap ssize (erasedAcc res.2.2.2 er)
      { res.2.1 with lastPacketAddr := res.2.2.1 } := by
  unfold write_loop_rest at hrun
  by_cases hsz : size = 0
  · rw [if_pos hsz] at hrun
    obtain rfl : (ErrorT.success, st, packet, ([] : List Ev)) = res :=
      Option.some.inj hrun
    refine ⟨rfl, ?_⟩
    exact goodvalid_of_loopinv bufCap ssize er st packet inv hup
  · rw [if_neg hsz] at hrun
    by_cases hsec : st.currentSectorAddr + st.currentSectorSize ≤ packet
    · rw [if_pos hsec] at hrun
      by_cases hst2 : (setup_next_sector bufCap intf st packet).1 = ErrorT.success
      · rw [setup_success_spec bufCap ssize intf st packet
          (hssu packet) hSS (hmpu packet) hst2] at hrun
        simp only [ne_eq, not_true_eq_false, if_false, reduceCtorEq] at hrun
        split at hrun
        · exact Option.noConfusion hrun
        · rename_i statusR stR pktR evsR hw
          obtain rfl :
              (statusR, stR, pktR,
                ((if intf.hasAlgoSet = true then [Ev.algoSet (ROUND_DOWN packet ssize)]
                  else []) ++ [Ev.eraseSector (ROUND_DOWN packet ssize)]) ++ evsR) = res :=
            Option.some.inj hrun
          have invB := loopinv_after_setup bufCap ssize er st packet hSS hcap hdvd
            inv.stOpen inv.valid
          have invC := loopinv_after_copy bufCap ssize
            (ROUND_DOWN packet ssize :: er) _ packet
            (min size (min ssize bufCap - (packet - ROUND_DOWN packet ssize)))
            (bufWrite (memsetFF st.pageBuffer (min ssize bufCap))
              (packet - ROUND_DOWN packet ssize)
              (List.take (min size (min ssize bufCap - (packet - ROUND_DOWN packet ssize))) data))
            invB (by simpa using lt_rdown_add hSS)
          have hin := hrec _ _ _ _ _ _ invC hw hsucc
          constructor
          · rw [ebp_append]
            rw [ebp_algo_erase, erasedAcc_algo_erase]
            simpa using hin.1
          · rw [erasedAcc_append, erasedAcc_algo_erase]
            exact hin.2
      · rcases hset : setup_next_sector bufCap intf st packet with ⟨s2, stB, evs2⟩
        rw [hset] at hrun hst2
        simp only [ne_eq] at hrun hst2
        rw [if_pos hst2] at hrun
        obtain rfl : (s2, stB, packet, evs2) = res := Option.some.inj hrun
        exact absurd hsucc hst2
    · rw [if_neg hsec] at hrun
      simp only [ne_eq, not_true_eq_false, if_false, reduceCtorEq, List.nil_append] at hrun
      split at hrun
      · exact Option.noConfusion hrun
      · rename_i statusR stR pktR evsR hw
        obtain rfl : (statusR, stR, pktR, evsR) = res := Option.some.inj hrun
        have hsecLt : packet < st.currentSectorAddr + ssize := by
          have hs := inv.sSize
          omega
        have invC := loopinv_after_copy bufCap ssize er st packet
          (min size (st.currentWriteBlockSize - (packet - st.currentWriteBlockAddr)))
          (bufWrite st.pageBuffer (packet - st.currentWriteBlockAddr)
            (List.take (min size (st.currentWriteBlockSize - (packet - st.currentWriteBlockAddr))) data))
          inv hsecLt
        have hin := hrec _ _ _ _ _ _ invC hw hsucc
        exact hin

theorem write_loop_inv (bufCap ssize : Nat) (intf : FlashIntf)
    (hSS : ssize ≠ 0) (hcap : bufCap ≠ 0) (hdvd : min ssize bufCap ∣ ssize)
    (hssu : ∀ a, intf.eraseSecSize a = ssize)
    (hmpu : ∀ a, intf.progPageMinSize a ≠ 0) :
    ∀ (fuel packet : Nat) (data : List Nat) (size : Nat) (st : FMState)
      (er : List Nat) (res : ErrorT × FMState × Nat × List Ev),
      LoopInv bufCap ssize er st packet →
      write_loop bufCap intf fuel packet data size st = some res →
      res.1 = ErrorT.success →
      erase_before_program ssize res.2.2.2 er = true ∧
      GoodValid bufCap ssize (erasedAcc res.2.2.2 er)
        { res.2.1 with lastPacketAddr := res.2.2.1 } := by
  intro fuel
  induction fuel with
  | zero =>
    intro packet data size st er res _ hrun _
    simp [write_loop] at hrun
  | succ fuel ih =>
    intro packet data size st er res inv hrun hsucc
    rw [write_loop] at hrun
    by_cases hflush : st.currentWriteBlockAddr + st.currentWriteBlockSize ≤ packet
    · rw [if_pos hflush] at hrun
      rcases flush_cases intf st packet with ⟨hpe, heq⟩ | ⟨hpe, heq⟩
      · -- buffer empty: no program call, flush only re-aims the window
        rw [heq] at hrun
        simp only [ne_eq, not_true_eq_false, if_false, reduceCtorEq,
          List.nil_append] at hrun
        split at hrun
        · exact Option.noConfusion hrun
        · rename_i statusR stR pktR evsR hw
          obtain rfl : (statusR, stR, pktR, evsR) = res := Option.some.inj hrun
          have invA := loopinv_after_flush bufCap ssize er st packet hSS hcap hdvd inv
          exact write_loop_rest_inv bufCap ssize intf hSS hcap hdvd hssu hmpu
            (write_loop bufCap intf fuel) ih packet data size _ er _ invA
            (by simp only []; rw [inv.bSize]) hw hsucc
      · -- buffer not empty: the flush programs the buffered block
        rw [heq] at hrun
        by_cases hpp : intf.programPageRes st.currentWriteBlockAddr
            (st.pageBuffer.take st.currentWriteBlockSize)
            st.currentWriteBlockSize = ErrorT.success
        · rw [hpp] at hrun
          simp only [ne_eq, not_true_eq_false, if_false, reduceCtorEq] at hrun
          split at hrun
          · exact Option.noConfusion hrun
          · rename_i statusR stR pktR evsR hw
            obtain rfl :
                (statusR, stR, pktR,
                  [Ev.programPage st.currentWriteBlockAddr
                    (st.pageBuffer.take st.currentWriteBlockSize)
                    st.currentWriteBlockSize] ++ evsR) = res :=
              Option.some.inj hrun
            have invA := loopinv_after_flush bufCap ssize er st packet hSS hcap hdvd inv
            have hin := write_loop_rest_inv bufCap ssize intf hSS hcap hdvd hssu hmpu
              (write_loop bufCap intf fuel) ih packet data size _ er _ invA
              (by simp only []; rw [inv.bSize]) hw hsucc
            constructor
            · rw [ebp_append]
              have h1 : erase_before_program ssize
                  [Ev.programPage st.currentWriteBlockAddr
                    (st.pageBuffer.take st.currentWriteBlockSize)
                    st.currentWriteBlockSize] er = true := by
                simp [erase_before_program, inv.bufOk hpe]
              have h2 : erasedAcc
                  [Ev.programPage st.currentWriteBlockAddr
                    (st.pageBuffer.take st.currentWriteBlockSize)
                    st.currentWriteBlockSize] er = er := by
                simp [erasedAcc]
              rw [h1, h2]
              simpa using hin.1
            · have h2 : erasedAcc
                  ([Ev.programPage st.currentWriteBlockAddr
                    (st.pageBuffer.take st.currentWriteBlockSize)
                    st.currentWriteBlockSize] ++ evsR) er = erasedAcc evsR er := by
                rw [erasedAcc_append]
                simp [erasedAcc]
              rw [h2]
              exact hin.2
        · -- flush failure: the loop returns the error; excluded by hsucc
          simp only [ne_eq, hpp, not_false_eq_true, if_true] at hrun
          obtain rfl :
              (intf.programPageRes st.currentWriteBlockAddr
                 (st.pageBuffer.take st.currentWriteBlockSize)
                 st.currentWriteBlockSize,
               _, packet,
               [Ev.programPage st.currentWriteBlockAddr
                  (st.pageBuffer.take st.currentWriteBlockSize)
                  st.currentWriteBlockSize]) = res := Option.some.inj hrun
          exact absurd hsucc hpp
    · -- no flush needed
      rw [if_neg hflush] at hrun
      simp only [ne_eq, not_true_eq_false, if_false, reduceCtorEq,
        List.nil_append] at hrun
      split at hrun
      · exact Option.noConfusion hrun
      · rename_i statusR stR pktR evsR hw
        obtain rfl : (statusR, stR, pktR, evsR) = res := Option.some.inj hrun
        have hlt : packet < st.currentWriteBlockAddr + min ssize bufCap := by
          have hb := inv.bSize
          omega
        have hup : st.currentWriteBlockAddr = ROUND_DOWN packet (min ssize bufCap) :=
          (rdown_unique inv.bAligned inv.bLe hlt).symm
        exact write_loop_rest_inv bufCap ssize intf hSS hcap hdvd hssu hmpu
          (write_loop bufCap intf fuel) ih packet data size st er _ inv hup hw hsucc

theorem fm_write_finish (bufCap ssize : Nat) (intf : FlashIntf)
    (hSS : ssize ≠ 0) (hcap : bufCap ≠ 0) (hdvd : min ssize bufCap ∣ ssize)
    (hssu : ∀ a, intf.eraseSecSize a = ssize)
    (hmpu : ∀ a, intf.progPageMinSize a ≠ 0)
    (packet : Nat) (data : List Nat) (size : Nat) (st1 : FMState)
    (er er1 : List Nat) (evsPre : List Ev)
    (stD : FMState) (pktL : Nat) (evsL : List Ev)
    (hpre1 : erase_before_program ssize evsPre er = true)
    (hpre2 : erasedAcc evsPre er = er1)
    (inv : LoopInv bufCap ssize er1 st1 packet)
    (hw : write_loop bufCap intf (size + 1) packet data size st1 =
      some (ErrorT.success, stD, pktL, evsL)) :
    erase_before_program ssize (evsPre ++ evsL) er = true ∧
    FMGood bufCap ssize (erasedAcc (evsPre ++ evsL) er)
      { stD with lastPacketAddr := pktL } := by
  have hin := write_loop_inv bufCap ssize intf hSS hcap hdvd hssu hmpu
    (size + 1) packet data size st1 er1 (ErrorT.success, stD, pktL, evsL)
    inv hw rfl
  constructor
  · rw [ebp_append, hpre1, hpre2]
    simpa using hin.1
  · rw [erasedAcc_append, hpre2]
    exact ⟨hin.2.stOpen, Or.inr ⟨hin.2.valid, hin.2⟩⟩

theorem fm_write_good (bufCap ssize : Nat) (intf : FlashIntf)
    (hSS : ssize ≠ 0) (hcap : bufCap ≠ 0) (hdvd : min ssize bufCap ∣ ssize)
    (hssu : ∀ a, intf.eraseSecSize a = ssize)
    (hmpu : ∀ a, intf.progPageMinSize a ≠ 0)
    (st : FMState) (packet : Nat) (data : List Nat) (size : Nat)
    (er : List Nat) (st2 : FMState) (evs : List Ev)
    (hgood : FMGood bufCap ssize er st)
    (hrun : fm_write bufCap intf st packet data size =
      some (ErrorT.success, st2, evs)) :
    erase_before_program ssize evs er = true ∧
    FMGood bufCap ssize (erasedAcc evs er) st2 := by
  obtain ⟨hopen, hcase⟩ := hgood
  rw [fm_write] at hrun
  rw [if_neg (by simp [hopen])] at hrun
  rcases hcase with ⟨hv, hpe⟩ | ⟨hv, gv⟩
  · -- no valid sector yet: the write begins with setup_next_sector
    rw [if_pos hv] at hrun
    by_cases hst0 : (setup_next_sector bufCap intf st packet).1 = ErrorT.success
    · rw [setup_success_spec bufCap ssize intf st packet
        (hssu packet) hSS (hmpu packet) hst0] at hrun
      simp only [ne_eq, not_true_eq_false, if_false, reduceCtorEq,
        List.nil_append, List.append_nil, not_false_eq_true, if_true,
        List.append_assoc] at hrun
      split at hrun
      · exact Option.noConfusion hrun
      · rename_i statusL stD pktL evsL hw
        by_cases hsl : statusL = ErrorT.success
        · subst hsl
          rw [if_neg (by simp)] at hrun
          simp only [Option.some.injEq, Prod.mk.injEq, true_and] at hrun
          obtain ⟨h2, h3⟩ := hrun
          subst h2
          subst h3
          have hfin := fm_write_finish bufCap ssize intf hSS hcap hdvd hssu hmpu
            packet data size
            { st with
              currentSectorValid := true,
              lastPacketAddr := packet,
              currentWriteBlockAddr := ROUND_DOWN packet ssize,
              currentWriteBlockSize := min ssize bufCap,
              currentSectorAddr := ROUND_DOWN packet ssize,
              currentSectorSize := ssize,
              pageBuffer := memsetFF st.pageBuffer (min ssize bufCap) }
            er (ROUND_DOWN packet ssize :: er)
            ((if intf.hasAlgoSet then [Ev.algoSet (ROUND_DOWN packet ssize)]
              else []) ++ [Ev.eraseSector (ROUND_DOWN packet ssize)])
            stD pktL evsL
            (ebp_algo_erase ssize (ROUND_DOWN packet ssize) (ROUND_DOWN packet ssize)
              intf.hasAlgoSet er)
            (erasedAcc_algo_erase (ROUND_DOWN packet ssize) (ROUND_DOWN packet ssize)
              intf.hasAlgoSet er)
            ⟨hopen, rfl, rfl, rfl, rdown_mod packet ssize,
              mod_eq_zero_trans (rdown_mod packet ssize) hdvd, by simp,
              by
                intro _
                simp only []
                rw [rdown_of_aligned (rdown_mod packet ssize)]
                simp,
              rdown_le packet ssize, rdown_le packet ssize, Nat.le_refl _⟩
            hw
          simpa [List.append_assoc] using hfin
        · rw [if_pos (by simp [hsl])] at hrun
          simp only [Option.some.injEq, Prod.mk.injEq] at hrun
          exact absurd hrun.1 hsl
    · rcases hset : setup_next_sector bufCap intf st packet with ⟨s0, stS, evs0⟩
      rw [hset] at hrun hst0
      simp only [ne_eq] at hrun hst0
      rw [if_pos hst0] at hrun
      simp only [Option.some.injEq, Prod.mk.injEq] at hrun
      exact absurd hrun.1 hst0
  · -- sector already valid
    rw [if_neg (by simp [hv])] at hrun
    simp only [] at hrun
    have hsAlignedBs : st.currentSectorAddr % min ssize bufCap = 0 :=
      mod_eq_zero_trans gv.sAligned hdvd
    have hsLeOfEq : ROUND_DOWN packet st.currentSectorSize =
        ROUND_DOWN st.lastPacketAddr st.currentSectorSize →
        st.currentSectorAddr ≤ packet := by
      intro heqs
      rw [gv.sSize] at heqs
      have h1 : st.currentSectorAddr ≤ ROUND_DOWN st.lastPacketAddr ssize :=
        le_rdown gv.sAligned gv.sLast
      rw [← heqs] at h1
      exact Nat.le_trans h1 (rdown_le packet ssize)
    by_cases hbchg : ROUND_DOWN packet st.currentWriteBlockSize ≠
        ROUND_DOWN st.lastPacketAddr st.currentWriteBlockSize
    · -- the write moves to a different block window: flush first
      rw [if_pos hbchg] at hrun
      rcases flush_cases intf st packet with ⟨hpe, heq1⟩ | ⟨hpe, heq1⟩
      · -- flush with an empty buffer: no program call
        rw [heq1] at hrun
        simp only [ne_eq, not_true_eq_false, if_false, reduceCtorEq,
          List.nil_append, List.append_nil] at hrun
        by_cases hschg : ROUND_DOWN packet st.currentSectorSize ≠
            ROUND_DOWN st.lastPacketAddr st.currentSectorSize
        · -- also a different sector: erase it
          rw [if_pos hschg] at hrun
          by_cases hst2 : (setup_next_sector bufCap intf
              { st with
                  pageBufEmpty := true,
                  pageBuffer := memsetFF st.pageBuffer st.currentWriteBlockSize,
                  currentWriteBlockAddr := ROUND_DOWN packet st.currentWriteBlockSize }
              packet).1 = ErrorT.success
          · rw [setup_success_spec bufCap ssize intf _ packet
              (hssu packet) hSS (hmpu packet) hst2] at hrun
            simp only [ne_eq, not_true_eq_false, if_false, reduceCtorEq,
              List.nil_append, List.append_nil, List.append_assoc] at hrun
            split at hrun
            · exact Option.noConfusion hrun
            · rename_i statusL stD pktL evsL hw
              by_cases hsl : statusL = ErrorT.success
              · subst hsl
                rw [if_neg (by simp)] at hrun
                simp only [Option.some.injEq, Prod.mk.injEq, true_and] at hrun
                obtain ⟨h2, h3⟩ := hrun
                subst h2
                subst h3
                have hfin := fm_write_finish bufCap ssize intf hSS hcap hdvd hssu hmpu
                  packet data size _ er (ROUND_DOWN packet ssize :: er)
                  ((if intf.hasAlgoSet then [Ev.algoSet (ROUND_DOWN packet ssize)]
                    else []) ++ [Ev.eraseSector (ROUND_DOWN packet ssize)])
                  stD pktL evsL
                  (ebp_algo_erase ssize _ _ intf.hasAlgoSet er)
                  (erasedAcc_algo_erase _ _ intf.hasAlgoSet er)
                  (loopinv_after_setup bufCap ssize er
                    { st with
                        pageBufEmpty := true,
                        pageBuffer := memsetFF st.pageBuffer st.currentWriteBlockSize,
                        currentWriteBlockAddr :=
                          ROUND_DOWN packet st.currentWriteBlockSize }
                    packet hSS hcap hdvd hopen hv)
                  hw
                simpa [List.append_assoc] using hfin
              · rw [if_pos (by simp [hsl])] at hrun
                simp only [Option.some.injEq, Prod.mk.injEq] at hrun
                exact absurd hrun.1.symm (fun h => hsl h.symm)
          · rcases hset : setup_next_sector bufCap intf
                { st with
                    pageBufEmpty := true,
                    pageBuffer := memsetFF st.pageBuffer st.currentWriteBlockSize,
                    currentWriteBlockAddr := ROUND_DOWN packet st.currentWriteBlockSize }
                packet with ⟨s2, stC, evs2⟩
            rw [hset] at hrun hst2
            simp only [ne_eq] at hrun hst2
            rw [if_pos hst2] at hrun
            simp only [Option.some.injEq, Prod.mk.injEq] at hrun
            exact absurd hrun.1 hst2
        · -- same sector: go straight to the loop
          rw [if_neg hschg] at hrun
          simp only [ne_eq, not_true_eq_false, if_false, reduceCtorEq,
            List.nil_append, List.append_nil] at hrun
          split at hrun
          · exact Option.noConfusion hrun
          · rename_i statusL stD pktL evsL hw
            by_cases hsl : statusL = ErrorT.success
            · subst hsl
              rw [if_neg (by simp)] at hrun
              simp only [Option.some.injEq, Prod.mk.injEq, true_and] at hrun
              obtain ⟨h2, h3⟩ := hrun
              subst h2
              subst h3
              have hsLe : st.currentSectorAddr ≤ packet :=
                hsLeOfEq (of_not_not hschg)
              have invF : LoopInv bufCap ssize er
                  { st with
                      pageBufEmpty := true,
                      pageBuffer := memsetFF st.pageBuffer st.currentWriteBlockSize,
                      currentWriteBlockAddr :=
                        ROUND_DOWN packet st.currentWriteBlockSize }
                  packet :=
                ⟨hopen, hv, gv.sSize, gv.bSize, gv.sAligned,
                  (show ROUND_DOWN packet st.currentWriteBlockSize %
                      min ssize bufCap = 0 by
                    rw [gv.bSize]
                    exact rdown_mod packet (min ssize bufCap)),
                  gv.sErased,
                  (by intro h; simp at h),
                  hsLe,
                  (show ROUND_DOWN packet st.currentWriteBlockSize ≤ packet from
                    rdown_le packet st.currentWriteBlockSize),
                  (show st.currentSectorAddr ≤
                      ROUND_DOWN packet st.currentWriteBlockSize by
                    rw [gv.bSize]
                    exact le_rdown hsAlignedBs hsLe)⟩
              have hfin := fm_write_finish bufCap ssize intf hSS hcap hdvd hssu hmpu
                packet data size _ er er ([] : List Ev)
                stD pktL evsL rfl rfl invF hw
              simpa using hfin
            · rw [if_pos (by simp [hsl])] at hrun
              simp only [Option.some.injEq, Prod.mk.injEq] at hrun
              exact absurd hrun.1.symm (fun h => hsl h.symm)
      · -- flush programs the buffered block first
        rw [heq1] at hrun
        by_cases hpp : intf.programPageRes st.currentWriteBlockAddr
            (st.pageBuffer.take st.currentWriteBlockSize)
            st.currentWriteBlockSize = ErrorT.success
        · rw [hpp] at hrun
          simp only [ne_eq, not_true_eq_false, if_false, reduceCtorEq,
            List.nil_append, List.append_nil] at hrun
          have hebpP : erase_before_program ssize
              [Ev.programPage st.currentWriteBlockAddr
                (st.pageBuffer.take st.currentWriteBlockSize)
                st.currentWriteBlockSize] er = true := by
            simp [erase_before_program, gv.bufOk hpe]
          have haccP : erasedAcc
              [Ev.programPage st.currentWriteBlockAddr
                (st.pageBuffer.take st.currentWriteBlockSize)
                st.currentWriteBlockSize] er = er := by
            simp [erasedAcc]
          by_cases hschg : ROUND_DOWN packet st.currentSectorSize ≠
              ROUND_DOWN st.lastPacketAddr st.currentSectorSize
          · rw [if_pos hschg] at hrun
            by_cases hst2 : (setup_next_sector bufCap intf
                { st with
                    pageBufEmpty := true,
                    pageBuffer := memsetFF st.pageBuffer st.currentWriteBlockSize,
                    currentWriteBlockAddr := ROUND_DOWN packet st.currentWriteBlockSize }
                packet).1 = ErrorT.success
            · rw [setup_success_spec bufCap ssize intf _ packet
                (hssu packet) hSS (hmpu packet) hst2] at hrun
              simp only [ne_eq, not_true_eq_false, if_false, reduceCtorEq,
                List.nil_append, List.append_nil, List.append_assoc] at hrun
              split at hrun
              · exact Option.noConfusion hrun
              · rename_i statusL stD pktL evsL hw
                by_cases hsl : statusL = ErrorT.success
                · subst hsl
                  rw [if_neg (by simp)] at hrun
                  simp only [Option.some.injEq, Prod.mk.injEq, true_and] at hrun
                  obtain ⟨h2, h3⟩ := hrun
                  subst h2
                  subst h3
                  have hpre1 : erase_before_program ssize
                      ([Ev.programPage st.currentWriteBlockAddr
                          (st.pageBuffer.take st.currentWriteBlockSize)
                          st.currentWriteBlockSize] ++
                        ((if intf.hasAlgoSet then
                            [Ev.algoSet (ROUND_DOWN packet ssize)] else []) ++
                          [Ev.eraseSector (ROUND_DOWN packet ssize)])) er = true := by
                    rw [ebp_append, hebpP, haccP]
                    simp [ebp_algo_erase]
                  have hpre2 : erasedAcc
                      ([Ev.programPage st.currentWriteBlockAddr
                          (st.pageBuffer.take st.currentWriteBlockSize)
                          st.currentWriteBlockSize] ++
                        ((if intf.hasAlgoSet then
                            [Ev.algoSet (ROUND_DOWN packet ssize)] else []) ++
                          [Ev.eraseSector (ROUND_DOWN packet ssize)])) er =
                      ROUND_DOWN packet ssize :: er := by
                    rw [erasedAcc_append, haccP, erasedAcc_algo_erase]
                  have hfin := fm_write_finish bufCap ssize intf hSS hcap hdvd
                    hssu hmpu packet data size _ er (ROUND_DOWN packet ssize :: er)
                    _ stD pktL evsL hpre1 hpre2
                    (loopinv_after_setup bufCap ssize er
                      { st with
                          pageBufEmpty := true,
                          pageBuffer := memsetFF st.pageBuffer st.currentWriteBlockSize,
                          currentWriteBlockAddr :=
                            ROUND_DOWN packet st.currentWriteBlockSize }
                      packet hSS hcap hdvd hopen hv)
                    hw
                  simpa [List.append_assoc] using hfin
                · rw [if_pos (by simp [hsl])] at hrun
                  simp only [Option.some.injEq, Prod.mk.injEq] at hrun
                  exact absurd hrun.1.symm (fun h => hsl h.symm)
            · rcases hset : setup_next_sector bufCap intf
                  { st with
                      pageBufEmpty := true,
                      pageBuffer := memsetFF st.pageBuffer st.currentWriteBlockSize,
                      currentWriteBlockAddr := ROUND_DOWN packet st.currentWriteBlockSize }
                  packet with ⟨s2, stC, evs2⟩
              rw [hset] at hrun hst2
              simp only [ne_eq] at hrun hst2
              rw [if_pos hst2] at hrun
              simp only [Option.some.injEq, Prod.mk.injEq] at hrun
              exact absurd hrun.1 hst2
          · rw [if_neg hschg] at hrun
            simp only [ne_eq, not_true_eq_false, if_false, reduceCtorEq,
              List.nil_append, List.append_nil] at hrun
            split at hrun
            · exact Option.noConfusion hrun
            · rename_i statusL stD pktL evsL hw
              by_cases hsl : statusL = ErrorT.success
              · subst hsl
                rw [if_neg (by simp)] at hrun
                simp only [Option.some.injEq, Prod.mk.injEq, true_and] at hrun
                obtain ⟨h2, h3⟩ := hrun
                subst h2
                subst h3
                have hsLe : st.currentSectorAddr ≤ packet :=
                  hsLeOfEq (of_not_not hschg)
                have invF : LoopInv bufCap ssize er
                    { st with
                        pageBufEmpty := true,
                        pageBuffer := memsetFF st.pageBuffer st.currentWriteBlockSize,
                        currentWriteBlockAddr :=
                          ROUND_DOWN packet st.currentWriteBlockSize }
                    packet :=
                  ⟨hopen, hv, gv.sSize, gv.bSize, gv.sAligned,
                    (show ROUND_DOWN packet st.currentWriteBlockSize %
                        min ssize bufCap = 0 by
                      rw [gv.bSize]
                      exact rdown_mod packet (min ssize bufCap)),
                    gv.sErased,
                    (by intro h; simp at h),
                    hsLe,
                    (show ROUND_DOWN packet st.currentWriteBlockSize ≤ packet from
                      rdown_le packet st.currentWriteBlockSize),
                    (show st.currentSectorAddr ≤
                        ROUND_DOWN packet st.currentWriteBlockSize by
                      rw [gv.bSize]
                      exact le_rdown hsAlignedBs hsLe)⟩
                have hfin := fm_write_finish bufCap ssize intf hSS hcap hdvd
                  hssu hmpu packet data size _ er er
                  [Ev.programPage st.currentWriteBlockAddr
                    (st.pageBuffer.take st.currentWriteBlockSize)
                    st.currentWriteBlockSize]
                  stD pktL evsL hebpP haccP invF hw
                simpa using hfin
              · rw [if_pos (by simp [hsl])] at hrun
                simp only [Option.some.injEq, Prod.mk.injEq] at hrun
                exact absurd hrun.1.symm (fun h => hsl h.symm)
        · simp only [ne_eq, hpp, not_false_eq_true, if_true] at hrun
          simp only [Option.some.injEq, Prod.mk.injEq] at hrun
          exact absurd hrun.1.symm (fun h => hpp h.symm)
    · -- same block window: no flush
      rw [if_neg hbchg] at hrun
      simp only [ne_eq, not_true_eq_false, if_false, reduceCtorEq,
        List.nil_append, List.append_nil] at hrun
      by_cases hschg : ROUND_DOWN packet st.currentSectorSize ≠
          ROUND_DOWN st.lastPacketAddr st.currentSectorSize
      · rw [if_pos hschg] at hrun
        by_cases hst2 : (setup_next_sector bufCap intf st packet).1 = ErrorT.success
        · rw [setup_success_spec bufCap ssize intf st packet
            (hssu packet) hSS (hmpu packet) hst2] at hrun
          simp only [ne_eq, not_true_eq_false, if_false, reduceCtorEq,
            List.nil_append, List.append_nil, List.append_assoc] at hrun
          split at hrun
          · exact Option.noConfusion hrun
          · rename_i statusL stD pktL evsL hw
            by_cases hsl : statusL = ErrorT.success
            · subst hsl
              rw [if_neg (by simp)] at hrun
              simp only [Option.some.injEq, Prod.mk.injEq, true_and] at hrun
              obtain ⟨h2, h3⟩ := hrun
              subst h2
              subst h3
              have hfin := fm_write_finish bufCap ssize intf hSS hcap hdvd
                hssu hmpu packet data size _ er (ROUND_DOWN packet ssize :: er)
                ((if intf.hasAlgoSet then [Ev.algoSet (ROUND_DOWN packet ssize)]
                  else []) ++ [Ev.eraseSector (ROUND_DOWN packet ssize)])
                stD pktL evsL
                (ebp_algo_erase ssize _ _ intf.hasAlgoSet er)
                (erasedAcc_algo_erase _ _ intf.hasAlgoSet er)
                (loopinv_after_setup bufCap ssize er st packet hSS hcap hdvd
                  hopen hv)
                hw
              simpa [List.append_assoc] using hfin
            · rw [if_pos (by simp [hsl])] at hrun
              simp only [Option.some.injEq, Prod.mk.injEq] at hrun
              exact absurd hrun.1.symm (fun h => hsl h.symm)
        · rcases hset : setup_next_sector bufCap intf st packet with ⟨s2, stC, evs2⟩
          rw [hset] at hrun hst2
          simp only [ne_eq] at hrun hst2
          rw [if_pos hst2] at hrun
          simp only [Option.some.injEq, Prod.mk.injEq] at hrun
          exact absurd hrun.1 hst2
      · rw [if_neg hschg] at hrun
        simp only [ne_eq, not_true_eq_false, if_false, reduceCtorEq,
          List.nil_append, List.append_nil] at hrun
        split at hrun
        · exact Option.noConfusion hrun
        · rename_i statusL stD pktL evsL hw
          by_cases hsl : statusL = ErrorT.success
          · subst hsl
            rw [if_neg (by simp)] at hrun
            simp only [Option.some.injEq, Prod.mk.injEq, true_and] at hrun
            obtain ⟨h2, h3⟩ := hrun
            subst h2
            subst h3
            have hsLe : st.currentSectorAddr ≤ packet :=
              hsLeOfEq (of_not_not hschg)
            have hbeq2 : ROUND_DOWN packet (min ssize bufCap) =
                ROUND_DOWN st.lastPacketAddr (min ssize bufCap) := by
              rw [← gv.bSize]
              exact of_not_not hbchg
            have hbLe : st.currentWriteBlockAddr ≤ packet := by
              rw [gv.bLast, ← hbeq2]
              exact rdown_le packet (min ssize bufCap)
            have hsbLe : st.currentSectorAddr ≤ st.currentWriteBlockAddr := by
              rw [gv.bLast]
              exact le_rdown hsAlignedBs gv.sLast
            have hfin := fm_write_finish bufCap ssize intf hSS hcap hdvd
              hssu hmpu packet data size st er er ([] : List Ev)
              stD pktL evsL rfl rfl
              ⟨hopen, hv, gv.sSize, gv.bSize, gv.sAligned, gv.bAligned,
                gv.sErased, gv.bufOk, hsLe, hbLe, hsbLe⟩
              hw
            simpa using hfin
          · rw [if_pos (by simp [hsl])] at hrun
            simp only [Option.some.injEq, Prod.mk.injEq] at hrun
            exact absurd hrun.1.symm (fun h => hsl h.symm)

theorem runWrites_good (bufCap ssize : Nat) (intf : FlashIntf)
    (hSS : ssize ≠ 0) (hcap : bufCap ≠ 0) (hdvd : min ssize bufCap ∣ ssize)
    (hssu : ∀ a, intf.eraseSecSize a = ssize)
    (hmpu : ∀ a, intf.progPageMinSize a ≠ 0) :
    ∀ (ws : List (Nat × List Nat)) (st : FMState) (er : List Nat)
      (st2 : FMState) (evs : List Ev),
      FMGood bufCap ssize er st →
      runWrites bufCap intf st ws = some (st2, evs) →
      erase_before_program ssize evs er = true ∧
      FMGood bufCap ssize (erasedAcc evs er) st2 := by
  intro ws
  induction ws with
  | nil =>
    intro st er st2 evs hgood hrun
    simp only [runWrites, Option.some.injEq, Prod.mk.injEq] at hrun
    obtain ⟨rfl, rfl⟩ := hrun
    exact ⟨rfl, hgood⟩
  | cons hd tl ih =>
    intro st er st2 evs hgood hrun
    simp only [runWrites] at hrun
    rcases hw1 : fm_write bufCap intf st hd.1 hd.2 hd.2.length with _ | ⟨s1, st1, evs1⟩
    · rw [hw1] at hrun
      exact Option.noConfusion hrun
    · rw [hw1] at hrun
      cases s1 with
      | success =>
        simp only [] at hrun
        rcases hw2 : runWrites bufCap intf st1 tl with _ | ⟨st3, evs3⟩
        · rw [hw2] at hrun
          exact Option.noConfusion hrun
        · rw [hw2] at hrun
          simp only [Option.some.injEq, Prod.mk.injEq] at hrun
          obtain ⟨rfl, rfl⟩ := hrun
          have h1 := fm_write_good bufCap ssize intf hSS hcap hdvd hssu hmpu
            st hd.1 hd.2 hd.2.length er st1 evs1 hgood hw1
          have h2 := ih st1 (erasedAcc evs1 er) st3 evs3 h1.2 hw2
          constructor
          · rw [ebp_append, h1.1, h2.1]
            rfl
          · rw [erasedAcc_append]
            exact h2.2
      | internal => simp at hrun
      | fail n => simp at hrun

theorem fm_uninit_ebp (bufCap ssize : Nat) (intf : FlashIntf) (st : FMState)
    (er : List Nat) (hgood : FMGood bufCap ssize er st) :
    erase_before_program ssize (fm_uninit bufCap intf st).2.2 er = true := by
  obtain ⟨hopen, hcase⟩ := hgood
  rw [fm_uninit]
  rw [if_neg (by simp [hopen])]
  rw [if_pos hopen]
  rcases flush_cases intf st 0 with ⟨hpe, heq⟩ | ⟨hpe, heq⟩
  · rw [heq]
    simp [erase_before_program]
  · rw [heq]
    have hb : ROUND_DOWN st.currentWriteBlockAddr ssize ∈ er := by
      rcases hcase with ⟨hv, hpe2⟩ | ⟨hv, gv⟩
      · rw [hpe2] at hpe
        exact Bool.noConfusion hpe
      · exact gv.bufOk hpe
    simp [erase_before_program, hb]

theorem fm_init_fresh (bufCap : Nat) (intf : FlashIntf)
    (hinit : intf.initRes = ErrorT.success) :
    fm_init bufCap intf (freshFM bufCap) =
      (ErrorT.success, { freshFM bufCap with flashState := FlashState.opened },
       [Ev.intfInit]) := by
  simp [fm_init, freshFM, hinit]

theorem fresh_good (bufCap ssize : Nat) (er : List Nat) :
    FMGood bufCap ssize er
      { freshFM bufCap with flashState := FlashState.opened } :=
  ⟨rfl, Or.inl ⟨rfl, rfl⟩⟩

theorem runSession_ebp (bufCap ssize : Nat) (intf : FlashIntf)
    (hSS : ssize ≠ 0) (hcap : bufCap ≠ 0) (hdvd : min ssize bufCap ∣ ssize)
    (hssu : ∀ a, intf.eraseSecSize a = ssize)
    (hmpu : ∀ a, intf.progPageMinSize a ≠ 0)
    (ws : List (Nat × List Nat)) (tr : List Ev)
    (hrun : runSession bufCap intf ws = some tr) :
    erase_before_program ssize tr [] = true := by
  rw [runSession] at hrun
  by_cases hinit : intf.initRes = ErrorT.success
  · rw [fm_init_fresh bufCap intf hinit] at hrun
    simp only [] at hrun
    rcases hw : runWrites bufCap intf
        { freshFM bufCap with flashState := FlashState.opened } ws
      with _ | ⟨st1, evs1⟩
    · rw [hw] at hrun
      exact Option.noConfusion hrun
    · rw [hw] at hrun
      simp only [Option.some.injEq] at hrun
      subst hrun
      have h1 := runWrites_good bufCap ssize intf hSS hcap hdvd hssu hmpu ws
        { freshFM bufCap with flashState := FlashState.opened } [] st1 evs1
        (fresh_good bufCap ssize []) hw
      have h2 := fm_uninit_ebp bufCap ssize intf st1 (erasedAcc evs1 []) h1.2
      rw [List.append_assoc, ebp_append]
      have h0 : erase_before_program ssize [Ev.intfInit] [] = true := rfl
      have h0a : erasedAcc [Ev.intfInit] [] = [] := rfl
      rw [h0, h0a, ebp_append, h1.1, h2]
      rfl
  · rcases hini : fm_init bufCap intf (freshFM bufCap) with ⟨s0, st0, evs0⟩
    have : s0 ≠ ErrorT.success := by
      rw [fm_init] at hini
      rw [if_neg (by simp [freshFM])] at hini
      rw [if_pos (by simp [hinit])] at hini
      simp only [Prod.mk.injEq] at hini
      rw [← hini.1]
      exact hinit
    rw [hini] at hrun
    cases s0 with
    | success => exact absurd rfl this
    | internal => exact Option.noConfusion hrun
    | fail n => exact Option.noConfusion hrun

/-- Claim C3, amended: for any session (init, successful writes, uninit)
against a backend with uniform erase-unit size ssize and nonzero minimum
program size, PROVIDED the write block size min(ssize, bufferCapacity)
divides ssize (true whenever the sector size is a multiple of the buffer
capacity, or at most the buffer capacity), every program_page call in the
session trace targets an address whose containing sector was erased by an
earlier erase_sector call. -/
theorem C3_amended_erase_before_program (bufCap ssize : Nat) (intf : FlashIntf)
    (hSS : ssize ≠ 0) (hcap : bufCap ≠ 0) (hdvd : min ssize bufCap ∣ ssize)
    (hssu : ∀ a, intf.eraseSecSize a = ssize)
    (hmpu : ∀ a, intf.progPageMinSize a ≠ 0)
    (ws : List (Nat × List Nat)) :
    ((runSession bufCap intf ws).all
      (fun tr => erase_before_program ssize tr [])) = true := by
  cases h : runSession bufCap intf ws with
  | none => rfl
  | some tr =>
    simpa [Option.all] using
      runSession_ebp bufCap ssize intf hSS hcap hdvd hssu hmpu ws tr h

/-- Witness for C3_amended_erase_before_program: the concrete aligned
geometry (sector 4096, buffer 256) and the Scenario C session. -/
theorem C3_amended_witness :
    ((runSession 256 intfA [(0, [1, 2]), (4090, c5_data)]).all
      (fun tr => erase_before_program 4096 tr [])) = true :=
  C3_amended_erase_before_program 256 4096 intfA (by decide) (by decide)
    (by decide) (fun _ => rfl) (fun _ => by simp [intfA]) [(0, [1, 2]), (4090, c5_data)]

/-- Claim C6, amended: after init and any number of successful writes
against a backend with uniform erase-unit size ssize and nonzero minimum
program size, PROVIDED min(ssize, bufferCapacity) divides ssize, every
reachable manager state with a valid sector satisfies both alignment
invariants: currentWriteBlockAddr mod currentWriteBlockSize = 0 and
currentSectorAddr mod currentSectorSize = 0 (so they hold before and after
every successful write call). -/
theorem C6_amended_alignment (bufCap ssize : Nat) (intf : FlashIntf)
    (hSS : ssize ≠ 0) (hcap : bufCap ≠ 0) (hdvd : min ssize bufCap ∣ ssize)
    (hssu : ∀ a, intf.eraseSecSize a = ssize)
    (hmpu : ∀ a, intf.progPageMinSize a ≠ 0)
    (ws : List (Nat × List Nat)) :
    ((runInitWrites bufCap intf ws).all
      (fun st => !st.currentSectorValid ||
        (decide (st.currentWriteBlockAddr % st.currentWriteBlockSize = 0) &&
         decide (st.currentSectorAddr % st.currentSectorSize = 0)))) = true := by
  cases h : runInitWrites bufCap intf ws with
  | none => rfl
  | some st2 =>
    rw [runInitWrites] at h
    by_cases hinit : intf.initRes = ErrorT.success
    · rw [fm_init_fresh bufCap intf hinit] at h
      simp only [] at h
      rcases hw : runWrites bufCap intf
          { freshFM bufCap with flashState := FlashState.opened } ws
        with _ | ⟨st1, evs1⟩
      · rw [hw] at h
        exact Option.noConfusion h
      · rw [hw] at h
        simp only [Option.some.injEq] at h
        subst h
        have h1 := runWrites_good bufCap ssize intf hSS hcap hdvd hssu hmpu ws
          { freshFM bufCap with flashState := FlashState.opened } [] st1 evs1
          (fresh_good bufCap ssize []) hw
        obtain ⟨-, hcase⟩ := h1.2
        rcases hcase with ⟨hv, -⟩ | ⟨hv, gv⟩
        · simp [Option.all, hv]
        · have hb : st1.currentWriteBlockAddr % st1.currentWriteBlockSize = 0 := by
            rw [gv.bSize]
            exact gv.bAligned
          have hs : st1.currentSectorAddr % st1.currentSectorSize = 0 := by
            rw [gv.sSize]
            exact gv.sAligned
          simp [Option.all, hv, hb, hs]
    · rcases hini : fm_init bufCap intf (freshFM bufCap) with ⟨s0, st0, evs0⟩
      have hne : s0 ≠ ErrorT.success := by
        rw [fm_init] at hini
        rw [if_neg (by simp [freshFM])] at hini
        rw [if_pos (by simp [hinit])] at hini
        simp only [Prod.mk.injEq] at hini
        rw [← hini.1]
        exact hinit
      rw [hini] at h
      cases s0 with
      | success => exact absurd rfl hne
      | internal => exact Option.noConfusion h
      | fail n => exact Option.noConfusion h

/-- Witness for C6_amended_alignment at the aligned geometry. -/
theorem C6_amended_witness :
    ((runInitWrites 256 intfA [(0, [1, 2]), (300, [3])]).all
      (fun st => !st.currentSectorValid ||
        (decide (st.currentWriteBlockAddr % st.currentWriteBlockSize = 0) &&
         decide (st.currentSectorAddr % st.currentSectorSize = 0)))) = true :=
  C6_amended_alignment 256 4096 intfA (by decide) (by decide) (by decide)
    (fun _ => rfl) (fun _ => by simp [intfA]) [(0, [1, 2]), (300, [3])]

end DAPLink
